import Mathlib

/-!
Verification of the versioned file-path resolution and naming system of the
wwPDB `py-wwpdb_io` repository (`PathInfo`, `ReleasePathInfo`,
`DataMaintenance`, and the `DataFileReference`/`ReferenceFileComponents`
subsystem).

Python strings are embedded as `List Char`; the dictionaries of the
content-type catalog are embedded as association lists.  Functions named
after the Python methods are direct translations of the corresponding
source code; definitions whose doc comment starts with `Modelled from the
spec:` embed code of this repository that is not present in the source
tree (the module `wwpdb/io/locator/DataReference.py`, which only its
callers and tests reference) and follow the specification's description
of that module.
-/

/-! ## Basic string utilities (embedding of Python `str.split`, `str(int)`, `int(str)`) -/

/-- Embedding of Python `s.split(sep)` for a one-character separator:
splits a character list at every occurrence of `sep`.  Like Python's
`split`, it returns one (possibly empty) field more than the number of
separators. -/
def splitOnC (sep : Char) : List Char → List (List Char)
  | [] => [[]]
  | c :: cs =>
    if c = sep then
      [] :: splitOnC sep cs
    else
      match splitOnC sep cs with
      | [] => [[c]]
      | f :: rest => (c :: f) :: rest

/-- Join a list of fields with a one-character separator (inverse of
`splitOnC`). -/
def joinSep (sep : Char) : List (List Char) → List Char
  | [] => []
  | [f] => f
  | f :: rest => f ++ sep :: joinSep sep rest

/-- The decimal digit character for a value `< 10` (Python `str(int)`
digit rendering). -/
def digChar (n : Nat) : Char := Char.ofNat (48 + n)

/-- Numeric value of a decimal digit character (Python `int(str)` digit
reading). -/
def digVal (c : Char) : Nat := c.toNat - 48

/-- Fuel-driven decimal rendering of a natural number, least-significant
digit last; `fuel > n` guarantees completion. -/
def natToDecAux : Nat → Nat → List Char
  | 0, _ => []
  | fuel + 1, n =>
    if n < 10 then [digChar n]
    else natToDecAux fuel (n / 10) ++ [digChar (n % 10)]

/-- Embedding of Python `str(n)` for a natural number: decimal rendering
with no leading zeros. -/
def natToDec (n : Nat) : List Char := natToDecAux (n + 1) n

/-- Embedding of Python `int(s)` on a string of decimal digits. -/
def digitsToNat (l : List Char) : Nat :=
  l.foldl (fun acc c => acc * 10 + digVal c) 0

/-- A list of characters that are all decimal digits (and nonempty), the
condition under which Python `int(s)` succeeds. -/
def allDigits (l : List Char) : Bool := !l.isEmpty && l.all Char.isDigit

/-! ### Lemmas about the string utilities -/

theorem splitOnC_ne_nil (sep : Char) (l : List Char) : splitOnC sep l ≠ [] := by
  cases l with
  | nil => simp [splitOnC]
  | cons c cs =>
    simp only [splitOnC]
    split
    · simp
    · cases h : splitOnC sep cs <;> simp

theorem splitOnC_no_sep (sep : Char) (a : List Char) (ha : ∀ c ∈ a, c ≠ sep) :
    splitOnC sep a = [a] := by
  induction a with
  | nil => rfl
  | cons c cs ih =>
    have hc : c ≠ sep := ha c (List.mem_cons_self c cs)
    have hcs : ∀ x ∈ cs, x ≠ sep := fun x hx => ha x (List.mem_cons_of_mem c hx)
    simp only [splitOnC, if_neg hc, ih hcs]

theorem splitOnC_append (sep : Char) (a b : List Char) (ha : ∀ c ∈ a, c ≠ sep) :
    splitOnC sep (a ++ sep :: b) = a :: splitOnC sep b := by
  induction a with
  | nil => simp [splitOnC]
  | cons c cs ih =>
    have hc : c ≠ sep := ha c (List.mem_cons_self c cs)
    have hcs : ∀ x ∈ cs, x ≠ sep := fun x hx => ha x (List.mem_cons_of_mem c hx)
    have h2 := ih hcs
    simp only [List.cons_append, splitOnC, if_neg hc]
    rw [show (cs.append (sep :: b)) = cs ++ sep :: b from rfl, h2]

theorem joinSep_splitOnC (sep : Char) (l : List Char) :
    joinSep sep (splitOnC sep l) = l := by
  induction l with
  | nil => rfl
  | cons c cs ih =>
    simp only [splitOnC]
    split
    · rename_i hc
      subst hc
      cases h : splitOnC c cs with
      | nil => exact absurd h (splitOnC_ne_nil c cs)
      | cons f rest =>
        rw [h] at ih
        simp [joinSep, ih]
    · rename_i hc
      cases h : splitOnC sep cs with
      | nil => exact absurd h (splitOnC_ne_nil sep cs)
      | cons f rest =>
        rw [h] at ih
        cases rest with
        | nil => simp_all [joinSep]
        | cons g rest' => simp_all [joinSep]

theorem splitOnC_parts_no_sep (sep : Char) (l : List Char) :
    ∀ part ∈ splitOnC sep l, ∀ c ∈ part, c ≠ sep := by
  induction l with
  | nil =>
    intro part hp
    simp [splitOnC] at hp
    simp [hp]
  | cons x xs ih =>
    intro part hp
    simp only [splitOnC] at hp
    by_cases hx : x = sep
    · rw [if_pos hx] at hp
      rcases List.mem_cons.mp hp with h | h
      · simp [h]
      · exact ih part h
    · rw [if_neg hx] at hp
      cases h : splitOnC sep xs with
      | nil => exact absurd h (splitOnC_ne_nil sep xs)
      | cons f rest =>
        rw [h] at hp
        rcases List.mem_cons.mp hp with h1 | h1
        · subst h1
          intro c hc
          rcases List.mem_cons.mp hc with rfl | hc'
          · exact hx
          · exact ih f (h ▸ List.mem_cons_self f rest) c hc'
        · exact ih part (h ▸ List.mem_cons_of_mem f h1)

theorem digVal_digChar {n : Nat} (h : n < 10) : digVal (digChar n) = n := by
  interval_cases n <;> decide

theorem isDigit_digChar {n : Nat} (h : n < 10) : (digChar n).isDigit = true := by
  interval_cases n <;> decide

theorem natToDecAux_all_digits :
    ∀ fuel n, ∀ c ∈ natToDecAux fuel n, c.isDigit = true := by
  intro fuel
  induction fuel with
  | zero => intro n c hc; simp [natToDecAux] at hc
  | succ fuel ih =>
    intro n c hc
    simp only [natToDecAux] at hc
    split at hc
    · rename_i h
      simp at hc
      subst hc
      exact isDigit_digChar h
    · rcases List.mem_append.mp hc with h1 | h1
      · exact ih _ c h1
      · simp at h1
        subst h1
        exact isDigit_digChar (Nat.mod_lt _ (by omega))

theorem natToDecAux_ne_nil : ∀ fuel n, 0 < fuel → natToDecAux fuel n ≠ [] := by
  intro fuel n h
  cases fuel with
  | zero => omega
  | succ fuel =>
    simp only [natToDecAux]
    split
    · simp
    · intro hcontra
      have hlen := congrArg List.length hcontra
      simp at hlen

theorem foldl_digits_natToDecAux :
    ∀ fuel n acc, n < fuel →
      List.foldl (fun acc c => acc * 10 + digVal c) acc (natToDecAux fuel n) =
        acc * 10 ^ (natToDecAux fuel n).length + n := by
  intro fuel
  induction fuel with
  | zero => intro n acc h; omega
  | succ fuel ih =>
    intro n acc h
    simp only [natToDecAux]
    split
    · rename_i h10
      simp [List.foldl, digVal_digChar h10]
    · rename_i h10
      push_neg at h10
      have hdiv : n / 10 < fuel := by
        have h1 : n / 10 < n := Nat.div_lt_self (by omega) (by omega)
        omega
      rw [List.foldl_append]
      rw [ih (n / 10) acc hdiv]
      simp only [List.foldl]
      rw [digVal_digChar (Nat.mod_lt _ (by omega))]
      rw [List.length_append]
      simp only [List.length_cons, List.length_nil]
      rw [pow_succ]
      have := Nat.div_add_mod n 10
      ring_nf
      omega

theorem digitsToNat_natToDec (n : Nat) : digitsToNat (natToDec n) = n := by
  unfold digitsToNat natToDec
  rw [foldl_digits_natToDecAux (n + 1) n 0 (by omega)]
  simp

theorem natToDec_all_digits (n : Nat) : ∀ c ∈ natToDec n, c.isDigit = true :=
  natToDecAux_all_digits (n + 1) n

theorem natToDec_ne_nil (n : Nat) : natToDec n ≠ [] :=
  natToDecAux_ne_nil (n + 1) n (by omega)

theorem isDigit_ne_dot {c : Char} (h : c.isDigit = true) : c ≠ '.' := by
  intro hc; subst hc; simp at h

theorem isDigit_ne_underscore {c : Char} (h : c.isDigit = true) : c ≠ '_' := by
  intro hc; subst hc; simp at h

/-! ## Content-type catalog (ContentTypeCatalog) -/

/-- Shorthand: the character list underlying a string literal. -/
def s2l (s : String) : List Char := s.toList

/-- One catalog entry: a symbolic content type, the format types its files
may take, and the token (acronym) used for it inside rendered filenames. -/
structure CTEntry where
  ctype : List Char
  formats : List (List Char)
  acronym : List Char
deriving DecidableEq

/-- Modelled from the spec: the static registry of `ContentTypeCatalog`
(§4.2), whose data lives in the site-configuration collaborator (the
`FILE_FORMAT_EXTENSION_DICTIONARY` and content-type dictionaries supplied
by `ConfigInfo`, outside this repository's source tree). -/
structure Catalog where
  contentTypes : List CTEntry
  formatExtD : List (List Char × List Char)

/-- `format_type -> file extension` lookup (spec §4.2: unknown format
yields null, not an exception; source: `PathInfo.getFileExtension`'s
dictionary access wrapped in try/except). -/
def extensionFor (cat : Catalog) (formatType : List Char) : Option (List Char) :=
  (cat.formatExtD.find? (fun p => decide (p.1 = formatType))).map (·.2)

/-- Content-type token (acronym) for a content-type base name. -/
def acronymFor (cat : Catalog) (contentType : List Char) : Option (List Char) :=
  (cat.contentTypes.find? (fun e => decide (e.ctype = contentType))).map (·.acronym)

/-- Content type recovered from a filename token (acronym). -/
def contentTypeForAcronym (cat : Catalog) (acronym : List Char) : Option (List Char) :=
  (cat.contentTypes.find? (fun e => decide (e.acronym = acronym))).map (·.ctype)

/-- Format type recovered from a content type and a filename extension:
the first format allowed for the content type whose extension matches. -/
def formatForExtension (cat : Catalog) (contentType ext : List Char) : Option (List Char) :=
  match cat.contentTypes.find? (fun e => decide (e.ctype = contentType)) with
  | none => none
  | some e => e.formats.find? (fun f => decide (extensionFor cat f = some ext))

/-- Modelled from the spec: a representative instance of the catalog data
(ContentTypeCatalog §4.2), with the mappings the spec and the repository's
tests pin down (`pdbx -> cif`, `pdb -> pdb`, `pic -> pic`, `gif -> gif`,
acronym `sf` for `structure-factors`, acronym `model` for `model`, ...). -/
def theCatalog : Catalog :=
  { contentTypes :=
      [ ⟨s2l "model", [s2l "pdbx", s2l "pdb", s2l "pdbml"], s2l "model"⟩
      , ⟨s2l "structure-factors", [s2l "pdbx", s2l "mtz", s2l "txt"], s2l "sf"⟩
      , ⟨s2l "seq-align-data", [s2l "pic"], s2l "seq-align-data"⟩
      , ⟨s2l "nmr-chemical-shifts", [s2l "nmr-star", s2l "pdbx"], s2l "cs"⟩
      , ⟨s2l "em-volume", [s2l "map"], s2l "em-volume"⟩
      , ⟨s2l "model-deposit", [s2l "pdbx", s2l "pdb"], s2l "model-deposit"⟩
      ]
  , formatExtD :=
      [ (s2l "pdbx", s2l "cif")
      , (s2l "pdb", s2l "pdb")
      , (s2l "pdbml", s2l "xml")
      , (s2l "mtz", s2l "mtz")
      , (s2l "pic", s2l "pic")
      , (s2l "map", s2l "map")
      , (s2l "xml", s2l "xml")
      , (s2l "html", s2l "html")
      , (s2l "json", s2l "json")
      , (s2l "txt", s2l "txt")
      , (s2l "gif", s2l "gif")
      , (s2l "nmr-star", s2l "str")
      ]
  }

/-! ## FilenameGrammar: rendering -/

/-- Modelled from the spec: `FilenameGrammar.render` (§4.1, §3 invariant):
`{dataset_id}_{content_type_token}_P{partition}.{extension}` optionally
followed by `.V{version}` (no suffix when the version is the "no version"
sentinel used for templates).  This is the filename rendering of the
absent `DataFileReference` module. -/
def renderFileName (dsId token ext : List Char) (part : Nat) (ver : Option Nat) : List Char :=
  dsId ++ '_' :: token ++ '_' :: 'P' :: natToDec part ++ '.' :: ext ++
    (match ver with
     | some v => '.' :: 'V' :: natToDec v
     | none => [])

/-! ## FilenameGrammar: parsing (ReferenceFileComponents) -/

/-- A trailing filename component `V<digits>`, parsed to a version
number. -/
def parseVersionComp (l : List Char) : Option Nat :=
  match l with
  | 'V' :: ds => if allDigits ds then some (digitsToNat ds) else none
  | _ => none

/-- A filename field `P<digits>`, parsed to a partition number. -/
def parsePartComp (l : List Char) : Option Nat :=
  match l with
  | 'P' :: ds => if allDigits ds then some (digitsToNat ds) else none
  | _ => none

/-- Right-to-left scan (over a reversed list) for the partition marker
`_P`: the scan input is the reversed base name, so the first `'P', '_'`
pair found marks the rightmost `_P` of the original. -/
def rsplitMarkAux : List Char → List Char → Option (List Char × List Char)
  | _, [] => none
  | acc, c :: rest =>
    match rest with
    | [] => none
    | d :: rest2 =>
      if c = 'P' ∧ d = '_' then some (rest2, acc)
      else rsplitMarkAux (c :: acc) rest

/-- Modelled from the spec: split the base name on the rightmost `_P`
(§4.1: "split the base on `_P` from the right to separate partition
number from the `{dataset_id}_{content_type_token}` remainder").
Returns `(left of the marker, right of the marker)` or `none` when no
`_P` occurs. -/
def rsplitP (l : List Char) : Option (List Char × List Char) :=
  match rsplitMarkAux [] l.reverse with
  | some (leftRev, right) => some (leftRev.reverse, right)
  | none => none

/-- The (partially populated) component record of
`ReferenceFileComponents`: deposition data-set id, content type, content
format, partition number, version number — each absent until parsed. -/
structure RFC where
  dsId : Option (List Char) := none
  ct : Option (List Char) := none
  fmt : Option (List Char) := none
  part : Option Nat := none
  ver : Option Nat := none
deriving DecidableEq

/-- Second stage of `ReferenceFileComponents.set`: decompose the base
name (filename minus extension and version) into dataset id, token and
partition, populating fields until the first structural or catalog
failure (the repository's tests pin the partially populated outcomes). -/
def rfcSetBase (cat : Catalog) (base : List Char) (extOpt : Option (List Char))
    (verOpt : Option Nat) : RFC × Bool :=
  match rsplitP base with
  | some (left, pd) =>
    (match splitOnC '_' left with
     | [f0, f1, acr] =>
       let dsid := f0 ++ '_' :: f1
       (match contentTypeForAcronym cat acr with
        | some ct =>
          if allDigits pd then
            (match extOpt with
             | some ext =>
               (match formatForExtension cat ct ext with
                | some fmt =>
                  (⟨some dsid, some ct, some fmt, some (digitsToNat pd), verOpt⟩, true)
                | none => (⟨some dsid, some ct, none, some (digitsToNat pd), verOpt⟩, false))
             | none => (⟨some dsid, some ct, none, some (digitsToNat pd), verOpt⟩, false))
          else (⟨some dsid, some ct, none, none, verOpt⟩, false)
        | none => (⟨some dsid, none, none, none, verOpt⟩, false))
     | f0 :: f1 :: _ => (⟨some (f0 ++ '_' :: f1), none, none, none, verOpt⟩, false)
     | _ => (⟨none, none, none, none, verOpt⟩, false))
  | none =>
    (match splitOnC '_' base with
     | [f0, f1, acr] =>
       (⟨some (f0 ++ '_' :: f1), contentTypeForAcronym cat acr, none, none, verOpt⟩, false)
     | f0 :: f1 :: _ => (⟨some (f0 ++ '_' :: f1), none, none, none, verOpt⟩, false)
     | _ => (⟨none, none, none, none, verOpt⟩, false))

/-- Modelled from the spec: `ReferenceFileComponents.set` (§4.1 parse,
DataReference module absent from the source tree): split on the last `.`
to strip a trailing `V<digits>` version (null version when absent), split
the remainder on `.` into base and extension, then decompose the base.
Returns the populated components and the success flag the Python method
returns. -/
def rfcSet (cat : Catalog) (fileName : List Char) : RFC × Bool :=
  let comps := splitOnC '.' fileName
  match comps.getLast? with
  | none => (⟨none, none, none, none, none⟩, false)
  | some lastC =>
    match parseVersionComp lastC with
    | some v =>
      (match comps.dropLast with
       | [base] => rfcSetBase cat base none (some v)
       | [base, ext] => rfcSetBase cat base (some ext) (some v)
       | _ => (⟨none, none, none, none, some v⟩, false))
    | none =>
      (match comps with
       | [base] => rfcSetBase cat base none none
       | [base, ext] => rfcSetBase cat base (some ext) none
       | _ => (⟨none, none, none, none, none⟩, false))

/-- `ReferenceFileComponents.get`: the five stored components. -/
def rfcGet (r : RFC) :
    Option (List Char) × Option (List Char) × Option (List Char) × Option Nat × Option Nat :=
  (r.dsId, r.ct, r.fmt, r.part, r.ver)

/-- The all-null 5-tuple `(None, None, None, None, None)`. -/
def allNone :
    Option (List Char) × Option (List Char) × Option (List Char) × Option Nat × Option Nat :=
  (none, none, none, none, none)

/-! ## PathInfo filename methods (translated from `PathInfo.py`) -/

/-- `PathInfo.parseFileName` (PathInfo.py:79-84): return the components
when `rfc.set` succeeds, the all-null tuple otherwise. -/
def parseFileName (cat : Catalog) (fileName : List Char) :
    Option (List Char) × Option (List Char) × Option (List Char) × Option Nat × Option Nat :=
  let (r, ok) := rfcSet cat fileName
  if ok then rfcGet r else allNone

/-- `PathInfo.splitFileName` (PathInfo.py:111-120): return `rfc.get()`
regardless of the success of `rfc.set` (exceptions mapped to all-null;
the model is total, so only the partially populated record remains). -/
def splitFileName (cat : Catalog) (fileName : List Char) :
    Option (List Char) × Option (List Char) × Option (List Char) × Option Nat × Option Nat :=
  rfcGet (rfcSet cat fileName).1

/-- `PathInfo.isValidFileName` (PathInfo.py:86-102): project compliance of
a filename, optionally requiring the version suffix. -/
def isValidFileName (cat : Catalog) (fileName : List Char) (requireVersion : Bool := true) : Bool :=
  let (r, ok) := rfcSet cat fileName
  if ok then
    if requireVersion then
      r.dsId.isSome && r.ct.isSome && r.fmt.isSome && r.part.isSome && r.ver.isSome
    else
      r.dsId.isSome && r.ct.isSome && r.fmt.isSome && r.part.isSome
  else false

/-- `PathInfo.getFileExtension` (PathInfo.py:104-109): dictionary lookup
on `FILE_FORMAT_EXTENSION_DICTIONARY`, `None` on a missing key. -/
def getFileExtension (cat : Catalog) (formatType : List Char) : Option (List Char) :=
  extensionFor cat formatType

/-! ## Path utilities -/

/-- Embedding of `os.path.join(a, b)` for the non-degenerate case used
throughout (roots do not end in `/`, second component relative). -/
def joinPath (a b : List Char) : List Char := a ++ '/' :: b

/-- `dataSetId.startswith("G_")` (PathInfo.py:131). -/
def startsWithG (dsid : List Char) : Bool :=
  match dsid with
  | 'G' :: '_' :: _ => true
  | _ => false

/-- Drop `pat` from the front of a list; `none` when `pat` is not a
prefix (used to embed prefix tests and glob patterns `pat*`). -/
def dropPre : List Char → List Char → Option (List Char)
  | [], l => some l
  | _ :: _, [] => none
  | p :: ps, c :: cs => if p = c then dropPre ps cs else none

/-- Python substring test `pat in s`. -/
def containsSub (pat : List Char) : List Char → Bool
  | [] => pat.isEmpty
  | c :: cs => (dropPre pat (c :: cs)).isSome || containsSub pat cs

/-- Python `s.endswith(suf)`. -/
def endsWithL (l suf : List Char) : Bool := (dropPre suf.reverse l.reverse).isSome

/-- Python truthiness of an optional string (`if s:`): present and
nonempty. -/
def truthy : Option (List Char) → Bool
  | some s => !s.isEmpty
  | none => false

/-- Python `s.upper()` on ASCII strings. -/
def upperL (l : List Char) : List Char := l.map Char.toUpper

/-! ## Site configuration and storage-location resolution -/

/-- The site-configuration values consumed by the core: the archive root
(`SITE_ARCHIVE_STORAGE_PATH`) and the optional distinct UI storage root
(`SITE_ARCHIVE_UI_STORAGE_PATH`). -/
structure SiteConfig where
  archiveRoot : List Char
  uiRoot : Option (List Char)

/-- Modelled from the spec: `StorageLocationResolver` (§4.3 table) of the
absent `DataFileReference` module — map a storage class and identifying
keys to the base directory, `none` when a required key is missing or the
storage class is unknown.  (The `uploads`/`pickles` classes, which no
claim exercises, are out of the modelled scope.) -/
def storageDir (cfg : SiteConfig) (storageType dsid : List Char)
    (wfInstanceId : Option (List Char)) (sessionPath : Option (List Char)) :
    Option (List Char) :=
  if storageType = s2l "archive" then
    some (joinPath (joinPath cfg.archiveRoot
      (if startsWithG dsid then s2l "autogroup" else s2l "archive")) dsid)
  else if storageType = s2l "autogroup" then
    some (joinPath (joinPath cfg.archiveRoot (s2l "autogroup")) dsid)
  else if storageType = s2l "deposit" then
    some (joinPath (joinPath cfg.archiveRoot (s2l "deposit")) dsid)
  else if storageType = s2l "deposit-ui" then
    match cfg.uiRoot with
    | some u => some (joinPath (joinPath u (s2l "deposit")) dsid)
    | none => some (joinPath (joinPath cfg.archiveRoot (s2l "deposit")) dsid)
  else if storageType = s2l "tempdep" then
    match cfg.uiRoot with
    | some u => some (joinPath (joinPath u (s2l "tempdep")) dsid)
    | none => some (joinPath (joinPath cfg.archiveRoot (s2l "tempdep")) dsid)
  else if storageType = s2l "wf-instance" then
    match wfInstanceId with
    | some wf =>
      some (joinPath (joinPath (joinPath (joinPath cfg.archiveRoot
        (s2l "workflow")) dsid) (s2l "instance")) wf)
    | none => none
  else if storageType = s2l "session" then
    match sessionPath with
    | some sp => some (joinPath sp dsid)
    | none => none
  else none

/-- `DataFileReference.getDirPathReference` for a configured reference
(modelled from the spec §4.4: the storage base directory alone). -/
def getDirPathReference (cfg : SiteConfig) (storageType dsid : List Char)
    (wfInstanceId sessionPath : Option (List Char)) : Option (List Char) :=
  storageDir cfg storageType dsid wfInstanceId sessionPath

/-! ## Version selection -/

/-- The version selector argument of the path accessors: an explicit
number, one of the symbolic requests, or the "no version / template"
sentinel `"none"`. -/
inductive VersionSel
  | num (n : Nat)
  | latest
  | nextV
  | previousV
  | noneV
deriving DecidableEq

/-- Version numbers present in a directory listing for one logical file:
files matching `dir/base.V*` whose tail is numeric, deduplicated
(spec §4.5 collects the set of integers present). -/
def versionsPresent (listing : List (List Char)) (dir base : List Char) : List Nat :=
  (listing.filterMap (fun f =>
    match dropPre (joinPath dir base ++ '.' :: ['V']) f with
    | some tail => if allDigits tail then some (digitsToNat tail) else none
    | none => none)).dedup

/-- Modelled from the spec: `VersionSelector` (§4.5) — resolve a symbolic
version request against the set of version numbers present. -/
def resolveVersion (vs : List Nat) : VersionSel → Option Nat
  | .num n => some n
  | .latest => vs.max?
  | .nextV => some ((vs.max?.getD 0) + 1)
  | .previousV =>
    match vs.max? with
    | none => none
    | some mx => (vs.filter (fun v => decide (v ≠ mx))).max?
  | .noneV => none

/-! ## DataFileReference rendering and validity -/

/-- Filename rendering of a configured `DataFileReference` (modelled from
the spec §4.1/§4.4): token and extension resolved through the catalog,
`none` when either lookup fails. -/
def dfrFileName (cat : Catalog) (contentType fmtType dsid : List Char) (p : Nat)
    (verOpt : Option Nat) : Option (List Char) :=
  match acronymFor cat contentType, extensionFor cat fmtType with
  | some acr, some ext => some (renderFileName dsid acr ext p verOpt)
  | _, _ => none

/-- Modelled from the spec: `DataFileReference.isReferenceValid` (§4.4 /
§3 invariant) — true iff the storage location resolves, the catalog
resolves the effective content type and the format type, and the dataset
id is present. -/
def isReferenceValid (cat : Catalog) (cfg : SiteConfig) (storageType dsid : List Char)
    (wfid sp : Option (List Char)) (ct fmtType : List Char) : Bool :=
  !dsid.isEmpty && (storageDir cfg storageType dsid wfid sp).isSome
    && (acronymFor cat ct).isSome && (extensionFor cat fmtType).isSome

/-! ## PathInfo path accessors (translated from `PathInfo.py`) -/

/-- The `fileSource` dispatch of `PathInfo.__getPathWorker`
(PathInfo.py:565-613): map the file source to the storage type and
session path the `DataFileReference` is configured with; `none` on the
final `else` branch (unrecognized file source). -/
def workerStorage (fs : List Char) (sessionPath sdp : Option (List Char)) :
    Option (List Char × Option (List Char)) :=
  if fs = s2l "archive" ∨ fs = s2l "wf-archive" then some (s2l "archive", none)
  else if fs = s2l "autogroup" then some (s2l "autogroup", none)
  else if fs = s2l "deposit" then some (s2l "deposit", none)
  else if fs = s2l "tempdep" then some (s2l "tempdep", none)
  else if fs = s2l "wf-instance" then some (s2l "wf-instance", none)
  else if fs = s2l "session" ∨ fs = s2l "wf-session" then some (s2l "session", sessionPath)
  else if fs = s2l "session-download" then some (s2l "session", sdp)
  else none

/-- The file sources `PathInfo.__getPathWorker` recognizes (its
if/elif chain). -/
def knownFileSources : List (List Char) :=
  [ s2l "archive", s2l "wf-archive", s2l "autogroup", s2l "deposit", s2l "tempdep"
  , s2l "wf-instance", s2l "session", s2l "wf-session", s2l "session-download" ]

/-- The effective content type of `PathInfo.__getPathWorker`
(PathInfo.py:549-552): `contentTypeBase + "-" + mileStone` when a
milestone is given, the base alone otherwise. -/
def effectiveCT (contentTypeBase : List Char) (ms : Option (List Char)) : List Char :=
  match ms with
  | some m => contentTypeBase ++ '-' :: m
  | none => contentTypeBase

/-- `PathInfo.__getPathWorker` (PathInfo.py:542-640), restricted to the
full-file-path component of its result: effective content type from base
and milestone, file-source dispatch, validity check, then directory and
rendered filename (with versions resolved against the directory
`listing`).  Returns the `(directory, filename)` pair whose
`os.path.join` is the full path. -/
def pathWorker (cat : Catalog) (cfg : SiteConfig) (listing : List (List Char))
    (sessionPath sdp : Option (List Char)) (dsid : List Char) (wfid : Option (List Char))
    (contentTypeBase fmtType : List Char) (fs : List Char) (ver : VersionSel) (p : Nat)
    (ms : Option (List Char)) : Option (List Char × List Char) :=
  let effCt := effectiveCT contentTypeBase ms
  match workerStorage fs sessionPath sdp with
  | none => none
  | some (st, sp) =>
    if isReferenceValid cat cfg st dsid wfid sp effCt fmtType then
      match storageDir cfg st dsid wfid sp with
      | none => none
      | some dir =>
        match ver with
        | .noneV => (dfrFileName cat effCt fmtType dsid p none).map (fun f => (dir, f))
        | .num n => (dfrFileName cat effCt fmtType dsid p (some n)).map (fun f => (dir, f))
        | v =>
          match dfrFileName cat effCt fmtType dsid p none with
          | none => none
          | some b =>
            match resolveVersion (versionsPresent listing dir b) v with
            | none => none
            | some n => (dfrFileName cat effCt fmtType dsid p (some n)).map (fun f => (dir, f))
    else none

/-- `PathInfo.getFilePath` / `PathInfo.__getStandardPath`
(PathInfo.py:417-427, 524-540): the full path, `None` on any failure
(exceptions are caught and logged). -/
def getFilePath (cat : Catalog) (cfg : SiteConfig) (listing : List (List Char))
    (sessionPath sdp : Option (List Char)) (dsid : List Char) (wfid : Option (List Char))
    (contentTypeBase fmtType : List Char) (fs : List Char) (ver : VersionSel) (p : Nat)
    (ms : Option (List Char)) : Option (List Char) :=
  (pathWorker cat cfg listing sessionPath sdp dsid wfid contentTypeBase fmtType fs ver p ms).map
    (fun pr => joinPath pr.1 pr.2)

/-- `PathInfo.getFileName` (PathInfo.py:430-442):
`os.path.basename(__getStandardPath(...))`, i.e. the filename component
of the worker's result. -/
def getFileName (cat : Catalog) (cfg : SiteConfig) (listing : List (List Char))
    (sessionPath sdp : Option (List Char)) (dsid : List Char) (wfid : Option (List Char))
    (contentTypeBase fmtType : List Char) (fs : List Char) (ver : VersionSel) (p : Nat)
    (ms : Option (List Char)) : Option (List Char) :=
  (pathWorker cat cfg listing sessionPath sdp dsid wfid contentTypeBase fmtType fs ver p ms).map
    (fun pr => pr.2)

/-- `PathInfo.getDirPath` (PathInfo.py:444-458): configure a
`DataFileReference` with the file source as storage type, with the
session special cases (note the source's `fileSource in
("session-download")` is a Python *substring* test against the string
`"session-download"`, not a tuple membership, and is translated as
such), and return its directory path reference. -/
def getDirPath (cfg : SiteConfig) (sessionPath sdp : Option (List Char))
    (dsid : List Char) (wfid : Option (List Char)) (fs : List Char) : Option (List Char) :=
  let stsp1 : List Char × Option (List Char) :=
    if fs = s2l "session" ∨ fs = s2l "wf-session" then (s2l "session", sessionPath)
    else (fs, none)
  let stsp2 : List Char × Option (List Char) :=
    if containsSub fs (s2l "session-download") then (s2l "session", sdp)
    else stsp1
  getDirPathReference cfg stsp2.1 dsid wfid stsp2.2

/-- `PathInfo.getArchivePath` (PathInfo.py:129-139): `autogroup` file
source for `G_` dataset ids, `archive` otherwise. -/
def getArchivePath (cfg : SiteConfig) (sessionPath sdp : Option (List Char))
    (dsid : List Char) : Option (List Char) :=
  if startsWithG dsid then getDirPath cfg sessionPath sdp dsid none (s2l "autogroup")
  else getDirPath cfg sessionPath sdp dsid none (s2l "archive")

/-! ## ReleasePathInfo (translated from `ReleasePathInfo.py`) -/

/-- The fixed set of release subdirectories (ReleasePathInfo.py:52). -/
def relSubdirs : List (List Char) :=
  [ s2l "added", s2l "modified", s2l "obsolete", s2l "emd", s2l "val_reports"
  , s2l "em_val_reports", s2l "val_images" ]

/-- The fixed set of EM sub-paths (ReleasePathInfo.py:58-66). -/
def emSubPaths : List (List Char) :=
  [ s2l "header", s2l "map", s2l "fsc", s2l "images", s2l "masks", s2l "other"
  , s2l "validation" ]

/-- `ReleasePathInfo.getForReleasePath` (ReleasePathInfo.py:33-71):
returns the for-release path or raises `NameError` (embedded as
`Except.error` carrying the message).  `version` must be `current` or
`previous`; a truthy `subdir` must be in the fixed set; a truthy
`em_sub_path` is validated (and used) only under a truthy `subdir` and a
truthy `accession`. -/
def getForReleasePath (root : List Char) (subdir : Option (List Char))
    (version : List Char) (accession : Option (List Char))
    (emSubPath : Option (List Char)) : Except (List Char) (List Char) :=
  let basedir := joinPath root (s2l "for_release")
  if version ≠ s2l "current" ∧ version ≠ s2l "previous" then
    .error (s2l "version not allowed")
  else
    let basedir := if version = s2l "previous" then joinPath basedir (s2l "previous")
                   else basedir
    if truthy subdir then
      let s := subdir.getD []
      if s ∉ relSubdirs then .error (s2l "subdir not allowed")
      else
        let basedir := joinPath basedir s
        if truthy emSubPath ∧ truthy accession then
          let e := emSubPath.getD []
          if e ∉ emSubPaths then .error (s2l "em_sub_path not allowed")
          else .ok (joinPath (joinPath basedir (upperL (accession.getD []))) e)
        else .ok basedir
    else .ok basedir

/-! ## DataMaintenance.reversePurge (translated from `DataMaintenance.py`) -/

/-- `DataMaintenance.reversePurge` (DataMaintenance.py:89-121), modulo
the filesystem: the directory listing (full paths) is passed in and the
glob `fn + ".V*"` is the prefix filter on it.  The versionless archive
filename `fn` is obtained through `PathInfo.getFilePath` with
`versionId="none"`; when that fails the Python code raises on
`None + ".V*"`, embedded as `none`.  Returns the list of selected
removal candidates. -/
def reversePurge (cat : Catalog) (cfg : SiteConfig) (listing : List (List Char))
    (dsid contentType fmtType : List Char) (p : Nat) : Option (List (List Char)) :=
  match getFileName cat cfg listing none none dsid none contentType fmtType
      (s2l "archive") VersionSel.noneV p none with
  | none => none
  | some fn =>
    let dirPath := joinPath (joinPath cfg.archiveRoot (s2l "archive")) dsid
    if dirPath.length < 2 then some []
    else
      let fpattern := joinPath dirPath (fn ++ '.' :: ['V'])
      let pthList := listing.filter (fun f => (dropPre fpattern f).isSome)
      some (pthList.filter (fun pth => !(endsWithL pth ('.' :: ['V', '1']))))

/-! ## Shared helper lemmas -/

theorem dropPre_self_append (a b : List Char) : dropPre a (a ++ b) = some b := by
  induction a with
  | nil => rfl
  | cons c cs ih => simp [dropPre, ih]

theorem workerStorage_none (fs : List Char) (sp sdp : Option (List Char))
    (h : fs ∉ knownFileSources) : workerStorage fs sp sdp = none := by
  simp only [knownFileSources, List.mem_cons, List.not_mem_nil, or_false, not_or] at h
  obtain ⟨h1, h2, h3, h4, h5, h6, h7, h8, h9⟩ := h
  simp only [workerStorage, h1, h2, h3, h4, h5, h6, h7, h8, h9, or_self, if_false,
    ite_false]

/-! ## Claim theorems -/

/-- C4: `isValidFileName("D_000001_model_P1.cif.V1")` is true under both
modes; `isValidFileName("D_000001_model_P1.cif")` is false when a version
is required and true when it is not; `isValidFileName("D_000001.cif")` is
false under both modes (it fails the partition-marker structural
check). -/
theorem C4_isValidFileName_cases :
    isValidFileName theCatalog (s2l "D_000001_model_P1.cif.V1") true = true ∧
    isValidFileName theCatalog (s2l "D_000001_model_P1.cif.V1") false = true ∧
    isValidFileName theCatalog (s2l "D_000001_model_P1.cif") true = false ∧
    isValidFileName theCatalog (s2l "D_000001_model_P1.cif") false = true ∧
    isValidFileName theCatalog (s2l "D_000001.cif") true = false ∧
    isValidFileName theCatalog (s2l "D_000001.cif") false = false := by
  decide

/-- C8: `getFileExtension("pdbx")` returns `"cif"`, and `getFileExtension`
of any format type not present in the configured extension dictionary
returns null rather than raising. -/
theorem C8_getFileExtension (fmtType : List Char)
    (h : ∀ p ∈ theCatalog.formatExtD, p.1 ≠ fmtType) :
    getFileExtension theCatalog (s2l "pdbx") = some (s2l "cif") ∧
    getFileExtension theCatalog fmtType = none := by
  refine ⟨by decide, ?_⟩
  have hfind : theCatalog.formatExtD.find? (fun p => decide (p.1 = fmtType)) = none := by
    rw [List.find?_eq_none]
    intro p hp
    simp [h p hp]
  simp [getFileExtension, extensionFor, hfind]

/-- C8 witness: the unknown format `"unknownformat"` is not a key of the
dictionary, and the lookups evaluate as stated. -/
theorem C8_getFileExtension_witness :
    getFileExtension theCatalog (s2l "pdbx") = some (s2l "cif") ∧
    getFileExtension theCatalog (s2l "unknownformat") = none :=
  C8_getFileExtension (s2l "unknownformat") (by decide)

/-- C9: `splitFileName` is total (all exceptions are mapped to the
all-null tuple) and, unlike `parseFileName`, returns a partially
populated tuple for a structurally deviant name:
`splitFileName("D_000001_model.cif.V1")`, whose partition marker is
absent, yields `("D_000001", "model", None, None, 1)`, while
`parseFileName` on the same input yields all `None`. -/
theorem C9_splitFileName_partial :
    splitFileName theCatalog (s2l "D_000001_model.cif.V1") =
      (some (s2l "D_000001"), some (s2l "model"), none, none, some 1) ∧
    parseFileName theCatalog (s2l "D_000001_model.cif.V1") = allNone :=
  ⟨by decide, by decide⟩

/-- C7: for every dataset id, `getArchivePath` resolves to
`{archive_root}/archive/{dataset_id}`, except when the dataset id starts
with `G_`, in which case it resolves to
`{archive_root}/autogroup/{dataset_id}`. -/
theorem C7_getArchivePath (cfg : SiteConfig) (sp sdp : Option (List Char))
    (dsid : List Char) :
    getArchivePath cfg sp sdp dsid =
      some (joinPath (joinPath cfg.archiveRoot
        (if startsWithG dsid then s2l "autogroup" else s2l "archive")) dsid) := by
  cases h : startsWithG dsid <;>
    simp [getArchivePath, getDirPath, getDirPathReference, storageDir, h, containsSub,
      dropPre, s2l]

/-- C5: for the same dataset id, the `deposit-ui` directory path equals
the `deposit` one when no distinct UI storage root is configured, and
when a distinct UI root is configured `deposit-ui` resolves under the UI
root (`{ui_root}/deposit/{dataset_id}`) and the two paths differ. -/
theorem C5_depositUI_isolation (cfg : SiteConfig) (dsid : List Char)
    (wfid sp : Option (List Char)) :
    (cfg.uiRoot = none →
      getDirPathReference cfg (s2l "deposit-ui") dsid wfid sp =
        getDirPathReference cfg (s2l "deposit") dsid wfid sp) ∧
    (∀ u, cfg.uiRoot = some u →
      getDirPathReference cfg (s2l "deposit-ui") dsid wfid sp =
        some (joinPath (joinPath u (s2l "deposit")) dsid) ∧
      (u ≠ cfg.archiveRoot →
        getDirPathReference cfg (s2l "deposit-ui") dsid wfid sp ≠
          getDirPathReference cfg (s2l "deposit") dsid wfid sp)) := by
  have hdep : getDirPathReference cfg (s2l "deposit") dsid wfid sp =
      some (joinPath (joinPath cfg.archiveRoot (s2l "deposit")) dsid) := rfl
  have hui : getDirPathReference cfg (s2l "deposit-ui") dsid wfid sp =
      (match cfg.uiRoot with
       | some u => some (joinPath (joinPath u (s2l "deposit")) dsid)
       | none => some (joinPath (joinPath cfg.archiveRoot (s2l "deposit")) dsid)) := rfl
  constructor
  · intro h
    rw [hui, h, hdep]
  · intro u hu
    rw [hui, hu]
    refine ⟨rfl, ?_⟩
    intro hne hcontra
    rw [hdep] at hcontra
    apply hne
    have h1 : joinPath (joinPath u (s2l "deposit")) dsid =
        joinPath (joinPath cfg.archiveRoot (s2l "deposit")) dsid := by
      exact Option.some.inj hcontra
    simp only [joinPath, List.append_assoc] at h1
    exact List.append_cancel_right h1

/-- C5 witness: with archive root `/data/archive` and no UI root the two
paths coincide; with UI root `/data/ui` the deposit-ui path is
`/data/ui/deposit/D_1000000000` and differs from the deposit path. -/
theorem C5_depositUI_isolation_witness :
    (getDirPathReference ⟨s2l "/data/archive", none⟩ (s2l "deposit-ui")
        (s2l "D_1000000000") none none =
      getDirPathReference ⟨s2l "/data/archive", none⟩ (s2l "deposit")
        (s2l "D_1000000000") none none) ∧
    getDirPathReference ⟨s2l "/data/archive", some (s2l "/data/ui")⟩ (s2l "deposit-ui")
        (s2l "D_1000000000") none none = some (s2l "/data/ui/deposit/D_1000000000") ∧
    getDirPathReference ⟨s2l "/data/archive", some (s2l "/data/ui")⟩ (s2l "deposit-ui")
        (s2l "D_1000000000") none none ≠
      getDirPathReference ⟨s2l "/data/archive", some (s2l "/data/ui")⟩ (s2l "deposit")
        (s2l "D_1000000000") none none := by
  refine ⟨(C5_depositUI_isolation _ _ _ _).1 rfl, ?_, ?_⟩
  · rw [((C5_depositUI_isolation ⟨s2l "/data/archive", some (s2l "/data/ui")⟩
      (s2l "D_1000000000") none none).2 (s2l "/data/ui") rfl).1]
    rfl
  · exact ((C5_depositUI_isolation ⟨s2l "/data/archive", some (s2l "/data/ui")⟩
      (s2l "D_1000000000") none none).2 (s2l "/data/ui") rfl).2 (by decide)

/-- C6 counterexample: an `em_sub_path` outside the fixed set, passed
together with an accession but without a subdir, does not raise — the
code validates `em_sub_path` only inside the `if subdir:` branch
(ReleasePathInfo.py:57), so the call returns the bare for-release path
instead of raising `NameError`, contradicting the claim. -/
theorem C6_counterexample :
    getForReleasePath (s2l "/data/archive") none (s2l "current")
      (some (s2l "emd-1234")) (some (s2l "bogus")) =
      Except.ok (joinPath (s2l "/data/archive") (s2l "for_release")) := by
  rfl

/-- C6 (amended): `getForReleasePath` raises (`NameError`, embedded as
`Except.error`) whenever `version` is neither `current` nor `previous`;
whenever a nonempty `subdir` outside the fixed set
`{added, modified, obsolete, emd, val_reports, em_val_reports,
val_images}` is requested; and whenever a nonempty `em_sub_path` outside
its fixed set is passed together with a valid requested subdir and a
nonempty accession — and in those cases it never returns a path.
(`em_sub_path` is ignored, not validated, when no nonempty subdir is
requested, and an empty-string subdir or em_sub_path is treated as
absent, per Python truthiness.) -/
theorem C6_invalid_enum_raises (root version : List Char)
    (subdir accession emSub : Option (List Char)) :
    (version ≠ s2l "current" → version ≠ s2l "previous" →
      ∃ e, getForReleasePath root subdir version accession emSub = Except.error e) ∧
    (∀ s, subdir = some s → s ≠ [] → s ∉ relSubdirs →
      ∃ e, getForReleasePath root subdir version accession emSub = Except.error e) ∧
    (∀ s es a, subdir = some s → s ∈ relSubdirs → emSub = some es → es ≠ [] →
      es ∉ emSubPaths → accession = some a → a ≠ [] →
      ∃ e, getForReleasePath root subdir version accession emSub = Except.error e) := by
  refine ⟨?_, ?_, ?_⟩
  · intro h1 h2
    refine ⟨s2l "version not allowed", ?_⟩
    simp only [getForReleasePath, if_pos (And.intro h1 h2)]
  · intro s hs hne hnotin
    by_cases hv : version ≠ s2l "current" ∧ version ≠ s2l "previous"
    · exact ⟨s2l "version not allowed", by simp only [getForReleasePath, if_pos hv]⟩
    · refine ⟨s2l "subdir not allowed", ?_⟩
      simp only [getForReleasePath, if_neg hv]
      have htr : truthy subdir = true := by
        rw [hs]; simp [truthy, hne]
      rw [if_pos htr, hs]
      simp only [Option.getD_some]
      rw [if_pos hnotin]
  · intro s es a hs hsin hes hesne hesnotin ha hane
    by_cases hv : version ≠ s2l "current" ∧ version ≠ s2l "previous"
    · exact ⟨s2l "version not allowed", by simp only [getForReleasePath, if_pos hv]⟩
    · refine ⟨s2l "em_sub_path not allowed", ?_⟩
      simp only [getForReleasePath, if_neg hv]
      have hsne : s ≠ [] := by
        intro h0
        subst h0
        exact absurd hsin (by decide)
      have htr : truthy subdir = true := by
        rw [hs]; simp [truthy, hsne]
      rw [if_pos htr, hs]
      simp only [Option.getD_some]
      rw [if_neg (by simp [hsin])]
      rw [if_pos (by rw [hes, ha]; constructor <;> simp [truthy, hesne, hane])]
      rw [hes]
      simp only [Option.getD_some]
      rw [if_pos hesnotin]

/-- C6 witness: a bad version raises, a bad subdir raises, a bad
em_sub_path under a valid subdir and accession raises. -/
theorem C6_invalid_enum_raises_witness :
    (∃ e, getForReleasePath (s2l "/data/archive") none (s2l "bogusversion") none none =
      Except.error e) ∧
    (∃ e, getForReleasePath (s2l "/data/archive") (some (s2l "bogus")) (s2l "current")
      none none = Except.error e) ∧
    (∃ e, getForReleasePath (s2l "/data/archive") (some (s2l "emd")) (s2l "current")
      (some (s2l "emd-1234")) (some (s2l "bogus")) = Except.error e) := by
  refine ⟨?_, ?_, ?_⟩
  · exact (C6_invalid_enum_raises (s2l "/data/archive") (s2l "bogusversion")
      none none none).1 (by decide) (by decide)
  · exact (C6_invalid_enum_raises (s2l "/data/archive") (s2l "current")
      (some (s2l "bogus")) none none).2.1 (s2l "bogus") rfl (by decide) (by decide)
  · exact (C6_invalid_enum_raises (s2l "/data/archive") (s2l "current")
      (some (s2l "emd")) (some (s2l "emd-1234")) (some (s2l "bogus"))).2.2
      (s2l "emd") (s2l "bogus") (s2l "emd-1234") rfl (by decide) rfl (by decide)
      (by decide) rfl (by decide)

/-- C3: for every reference that is not resolvable — empty dataset id,
effective content type or format type not mapping to a token/extension in
the catalog, or a file source outside the recognized set — `getFilePath`
returns `None` (never a malformed path, never a propagated exception:
the embedding is total). -/
theorem C3_unresolvable_returns_none (cat : Catalog) (cfg : SiteConfig)
    (listing : List (List Char)) (sessionPath sdp : Option (List Char))
    (dsid : List Char) (wfid : Option (List Char)) (contentTypeBase fmtType fs : List Char)
    (ver : VersionSel) (p : Nat) (ms : Option (List Char))
    (h : dsid = [] ∨ acronymFor cat (effectiveCT contentTypeBase ms) = none ∨
         extensionFor cat fmtType = none ∨ fs ∉ knownFileSources) :
    getFilePath cat cfg listing sessionPath sdp dsid wfid contentTypeBase fmtType
      fs ver p ms = none := by
  have hpw : pathWorker cat cfg listing sessionPath sdp dsid wfid contentTypeBase
      fmtType fs ver p ms = none := by
    rcases h with h | h | h | h
    · cases hws : workerStorage fs sessionPath sdp with
      | none => simp [pathWorker, hws]
      | some stsp =>
        obtain ⟨st, sp⟩ := stsp
        have hval : isReferenceValid cat cfg st dsid wfid sp
            (effectiveCT contentTypeBase ms) fmtType = false := by
          simp [isReferenceValid, h]
        simp [pathWorker, hws, hval]
    · cases hws : workerStorage fs sessionPath sdp with
      | none => simp [pathWorker, hws]
      | some stsp =>
        obtain ⟨st, sp⟩ := stsp
        have hval : isReferenceValid cat cfg st dsid wfid sp
            (effectiveCT contentTypeBase ms) fmtType = false := by
          simp [isReferenceValid, h]
        simp [pathWorker, hws, hval]
    · cases hws : workerStorage fs sessionPath sdp with
      | none => simp [pathWorker, hws]
      | some stsp =>
        obtain ⟨st, sp⟩ := stsp
        have hval : isReferenceValid cat cfg st dsid wfid sp
            (effectiveCT contentTypeBase ms) fmtType = false := by
          simp [isReferenceValid, h]
        simp [pathWorker, hws, hval]
    · simp [pathWorker, workerStorage_none fs sessionPath sdp h]
  simp [getFilePath, hpw]

/-- C3 witness: an unrecognized file source `bogus-source` yields `None`
even for an otherwise fully resolvable reference. -/
theorem C3_unresolvable_returns_none_witness :
    getFilePath theCatalog ⟨s2l "/data/archive", none⟩ [] none none
      (s2l "D_1000000000") none (s2l "model") (s2l "pdbx") (s2l "bogus-source")
      (VersionSel.num 1) 1 none = none :=
  C3_unresolvable_returns_none theCatalog ⟨s2l "/data/archive", none⟩ [] none none
    (s2l "D_1000000000") none (s2l "model") (s2l "pdbx") (s2l "bogus-source")
    (VersionSel.num 1) 1 none (Or.inr (Or.inr (Or.inr (by decide))))

/-- The transferred `.V1` suffix fact: a path built by appending a suffix
ends with that suffix. -/
theorem endsWithL_append (x suf : List Char) : endsWithL (x ++ suf) suf = true := by
  simp only [endsWithL, List.reverse_append]
  rw [dropPre_self_append]
  rfl

/-- C10: `reversePurge` never selects a version-1 file — every path in
the candidate list it returns comes from the directory listing, matches
the glob `dir/fn.V*` (prefix `dir/fn.V`), and does not end with `.V1`;
in particular the `.V1` file of the rendered name always survives. -/
theorem C10_reversePurge_spares_V1 (cat : Catalog) (cfg : SiteConfig)
    (listing : List (List Char)) (dsid contentType fmtType : List Char) (p : Nat)
    (res : List (List Char))
    (h : reversePurge cat cfg listing dsid contentType fmtType p = some res) :
    (∀ pth ∈ res, pth ∈ listing ∧ endsWithL pth ('.' :: ['V', '1']) = false) ∧
    (∀ fn, getFileName cat cfg listing none none dsid none contentType fmtType
        (s2l "archive") VersionSel.noneV p none = some fn →
      joinPath (joinPath (joinPath cfg.archiveRoot (s2l "archive")) dsid)
        (fn ++ '.' :: ['V', '1']) ∉ res) := by
  cases hfn : getFileName cat cfg listing none none dsid none contentType fmtType
      (s2l "archive") VersionSel.noneV p none with
  | none =>
    rw [reversePurge, hfn] at h
    dsimp only at h
    exact absurd h (by simp)
  | some fn =>
    rw [reversePurge, hfn] at h
    dsimp only at h
    by_cases hlen : (joinPath (joinPath cfg.archiveRoot (s2l "archive")) dsid).length < 2
    · rw [if_pos hlen] at h
      have hres : res = [] := by
        have := Option.some.inj h
        exact this.symm
      subst hres
      exact ⟨fun pth hp => absurd hp (List.not_mem_nil pth), fun _ _ => List.not_mem_nil _⟩
    · rw [if_neg hlen] at h
      have hres := (Option.some.inj h).symm
      constructor
      · intro pth hp
        rw [hres] at hp
        have h1 := List.mem_filter.mp hp
        have h2 := List.mem_filter.mp h1.1
        refine ⟨h2.1, ?_⟩
        have := h1.2
        simpa using this
      · intro fn2 hfn2
        have hfneq : fn2 = fn := (Option.some.inj hfn2).symm
        subst hfneq
        intro hmem
        rw [hres] at hmem
        have h1 := List.mem_filter.mp hmem
        have h2 := h1.2
        simp only [Bool.not_eq_true'] at h2
        have h3 : endsWithL (joinPath (joinPath (joinPath cfg.archiveRoot
            (s2l "archive")) dsid) (fn2 ++ '.' :: ['V', '1'])) ('.' :: ['V', '1']) = true := by
          have : joinPath (joinPath (joinPath cfg.archiveRoot (s2l "archive")) dsid)
              (fn2 ++ '.' :: ['V', '1']) =
              (joinPath (joinPath (joinPath cfg.archiveRoot (s2l "archive")) dsid) fn2) ++
                '.' :: ['V', '1'] := by
            simp [joinPath]
          rw [this]
          exact endsWithL_append _ _
        rw [h2] at h3
        exact absurd h3 (by simp)

/-- C10 witness: with versions 1, 2 and 3 present, `reversePurge` returns
exactly the `.V2` and `.V3` paths, each from the listing and not ending
in `.V1`, and the `.V1` path is not among them. -/
theorem C10_reversePurge_spares_V1_witness :
    (∀ pth ∈ [ s2l "/data/archive/archive/D_1/D_1_model_P1.cif.V2"
             , s2l "/data/archive/archive/D_1/D_1_model_P1.cif.V3" ],
      pth ∈ [ s2l "/data/archive/archive/D_1/D_1_model_P1.cif.V1"
            , s2l "/data/archive/archive/D_1/D_1_model_P1.cif.V2"
            , s2l "/data/archive/archive/D_1/D_1_model_P1.cif.V3" ] ∧
      endsWithL pth ('.' :: ['V', '1']) = false) ∧
    (∀ fn, getFileName theCatalog ⟨s2l "/data/archive", none⟩
        [ s2l "/data/archive/archive/D_1/D_1_model_P1.cif.V1"
        , s2l "/data/archive/archive/D_1/D_1_model_P1.cif.V2"
        , s2l "/data/archive/archive/D_1/D_1_model_P1.cif.V3" ] none none
        (s2l "D_1") none (s2l "model") (s2l "pdbx")
        (s2l "archive") VersionSel.noneV 1 none = some fn →
      joinPath (joinPath (joinPath (s2l "/data/archive") (s2l "archive")) (s2l "D_1"))
        (fn ++ '.' :: ['V', '1']) ∉
        [ s2l "/data/archive/archive/D_1/D_1_model_P1.cif.V2"
        , s2l "/data/archive/archive/D_1/D_1_model_P1.cif.V3" ]) :=
  C10_reversePurge_spares_V1 theCatalog ⟨s2l "/data/archive", none⟩
    [ s2l "/data/archive/archive/D_1/D_1_model_P1.cif.V1"
    , s2l "/data/archive/archive/D_1/D_1_model_P1.cif.V2"
    , s2l "/data/archive/archive/D_1/D_1_model_P1.cif.V3" ]
    (s2l "D_1") (s2l "model") (s2l "pdbx") 1
    [ s2l "/data/archive/archive/D_1/D_1_model_P1.cif.V2"
    , s2l "/data/archive/archive/D_1/D_1_model_P1.cif.V3" ]
    (by decide)

/-! ## Round-trip machinery (C1) -/

theorem allDigits_natToDec (n : Nat) : allDigits (natToDec n) = true := by
  cases hne : natToDec n with
  | nil => exact absurd hne (natToDec_ne_nil n)
  | cons c cs =>
    simp only [allDigits, List.isEmpty_cons, Bool.not_false, Bool.true_and,
      List.all_eq_true]
    intro x hx
    exact natToDec_all_digits n x (hne ▸ hx)

theorem rsplitMarkAux_found :
    ∀ (rb : List Char) (acc lr : List Char), (∀ c ∈ rb, c ≠ '_') →
      rsplitMarkAux acc (rb ++ 'P' :: '_' :: lr) = some (lr, rb.reverse ++ acc) := by
  intro rb
  induction rb with
  | nil =>
    intro acc lr _
    simp [rsplitMarkAux]
  | cons c rb' ih =>
    intro acc lr hc
    have hrb' : ∀ x ∈ rb', x ≠ '_' := fun x hx => hc x (List.mem_cons_of_mem c hx)
    have key : rsplitMarkAux acc ((c :: rb') ++ 'P' :: '_' :: lr) =
        rsplitMarkAux (c :: acc) (rb' ++ 'P' :: '_' :: lr) := by
      cases hrb : rb' ++ 'P' :: '_' :: lr with
      | nil => exact absurd (congrArg List.length hrb) (by simp)
      | cons d rest2 =>
        have hd : ¬(c = 'P' ∧ d = '_') := by
          rintro ⟨rfl, rfl⟩
          cases rb' with
          | nil => simp at hrb
          | cons e rb'' =>
            have he : e = '_' := by
              have := congrArg (fun l => l.head?) hrb
              simpa using this
            exact hrb' e (List.mem_cons_self e rb'') he
        rw [List.cons_append, hrb]
        exact if_neg hd
    rw [key, ih (c :: acc) lr hrb']
    simp

theorem rsplitP_marker (a pd : List Char) (hpd : ∀ c ∈ pd, c ≠ '_') :
    rsplitP (a ++ '_' :: 'P' :: pd) = some (a, pd) := by
  unfold rsplitP
  have hrev : (a ++ '_' :: 'P' :: pd).reverse = pd.reverse ++ 'P' :: '_' :: a.reverse := by
    simp
  rw [hrev, rsplitMarkAux_found pd.reverse [] a.reverse
    (fun c hc => hpd c (List.mem_reverse.mp hc))]
  simp

/-- Parsing inverts rendering: for a dataset id of the constrained shape
`x_digits`, a token and extension free of separator characters, and
catalog lookups that recover the content and format types, parsing the
rendered filename recovers every field. -/
theorem parse_render_master (cat : Catalog) (x : Char) (ds acr ext ct fmt : List Char)
    (p v : Nat)
    (hx1 : x ≠ '.') (hx2 : x ≠ '_')
    (hds2 : ∀ c ∈ ds, c.isDigit = true)
    (hacr : ∀ c ∈ acr, c ≠ '_' ∧ c ≠ '.')
    (hext : ∀ c ∈ ext, c ≠ '.')
    (hct : contentTypeForAcronym cat acr = some ct)
    (hfmt : formatForExtension cat ct ext = some fmt) :
    parseFileName cat (renderFileName (x :: '_' :: ds) acr ext p (some v)) =
      (some (x :: '_' :: ds), some ct, some fmt, some p, some v) := by
  have hdsnu : ∀ c ∈ ds, c ≠ '_' := fun c hc => isDigit_ne_underscore (hds2 c hc)
  have hdsnd : ∀ c ∈ ds, c ≠ '.' := fun c hc => isDigit_ne_dot (hds2 c hc)
  have hpdig := natToDec_all_digits p
  have hvdig := natToDec_all_digits v
  -- the base name (everything before the first '.')
  set A : List Char := x :: '_' :: (ds ++ '_' :: acr) with hA
  set base : List Char := A ++ '_' :: 'P' :: natToDec p with hbase
  have hfile : renderFileName (x :: '_' :: ds) acr ext p (some v) =
      base ++ '.' :: (ext ++ '.' :: ('V' :: natToDec v)) := by
    simp [renderFileName, hbase, hA]
  have hbase_nodot : ∀ c ∈ base, c ≠ '.' := by
    intro c hc
    rw [hbase, hA, List.cons_append, List.cons_append] at hc
    rcases List.mem_cons.mp hc with rfl | hc
    · exact hx1
    rcases List.mem_cons.mp hc with rfl | hc
    · decide
    rcases List.mem_append.mp hc with hc | hc
    · rcases List.mem_append.mp hc with hc | hc
      · exact hdsnd c hc
      · rcases List.mem_cons.mp hc with rfl | hc
        · decide
        · exact (hacr c hc).2
    · rcases List.mem_cons.mp hc with rfl | hc
      · decide
      · rcases List.mem_cons.mp hc with rfl | hc
        · decide
        · exact isDigit_ne_dot (hpdig c hc)
  have hv_nodot : ∀ c ∈ ('V' :: natToDec v), c ≠ '.' := by
    intro c hc
    rcases List.mem_cons.mp hc with rfl | h1
    · decide
    · exact isDigit_ne_dot (hvdig c h1)
  have hcomps : splitOnC '.' (renderFileName (x :: '_' :: ds) acr ext p (some v)) =
      [base, ext, 'V' :: natToDec v] := by
    rw [hfile, splitOnC_append '.' base _ hbase_nodot,
      splitOnC_append '.' ext _ hext, splitOnC_no_sep '.' _ hv_nodot]
  have hver : parseVersionComp ('V' :: natToDec v) = some v := by
    simp [parseVersionComp, allDigits_natToDec, digitsToNat_natToDec]
  have hsplitA : splitOnC '_' A = [[x], ds, acr] := by
    rw [hA]
    have h1 : splitOnC '_' ([x] ++ '_' :: (ds ++ '_' :: acr)) =
        [x] :: splitOnC '_' (ds ++ '_' :: acr) := by
      refine splitOnC_append '_' [x] _ ?_
      intro c hc
      rcases List.mem_singleton.mp hc with rfl
      exact hx2
    have h2 : splitOnC '_' (ds ++ '_' :: acr) = ds :: splitOnC '_' acr :=
      splitOnC_append '_' ds acr hdsnu
    have h3 : splitOnC '_' acr = [acr] :=
      splitOnC_no_sep '_' acr (fun c hc => (hacr c hc).1)
    rw [show (x :: '_' :: (ds ++ '_' :: acr) : List Char) =
      [x] ++ '_' :: (ds ++ '_' :: acr) from rfl, h1, h2, h3]
  have hrs : rsplitP base = some (A, natToDec p) := by
    rw [hbase]
    exact rsplitP_marker A (natToDec p)
      (fun c hc => isDigit_ne_underscore (hpdig c hc))
  have hsetbase : rfcSetBase cat base (some ext) (some v) =
      (⟨some (x :: '_' :: ds), some ct, some fmt, some p, some v⟩, true) := by
    unfold rfcSetBase
    rw [hrs]
    dsimp only
    rw [hsplitA]
    dsimp only
    rw [hct]
    dsimp only
    simp only [allDigits_natToDec, if_true, digitsToNat_natToDec, hfmt]
    rfl
  have hset : rfcSet cat (renderFileName (x :: '_' :: ds) acr ext p (some v)) =
      (⟨some (x :: '_' :: ds), some ct, some fmt, some p, some v⟩, true) := by
    unfold rfcSet
    rw [hcomps]
    dsimp only
    rw [show ([base, ext, 'V' :: natToDec v] : List (List Char)).getLast? =
      some ('V' :: natToDec v) from rfl]
    dsimp only
    rw [hver]
    dsimp only
    rw [show ([base, ext, 'V' :: natToDec v] : List (List Char)).dropLast =
      [base, ext] from rfl]
    dsimp only
    rw [hsetbase]
  unfold parseFileName
  rw [hset]
  rfl

/-- A dataset id of the constrained shape the system assumes
(`D_<digits>` or `G_<digits>`). -/
def ValidDatasetId (dsid : List Char) : Prop :=
  ∃ x ds, (x = 'D' ∨ x = 'G') ∧ ds ≠ [] ∧ (∀ c ∈ ds, c.isDigit = true) ∧
    dsid = x :: '_' :: ds

theorem getFileName_archive (cfg : SiteConfig) (listing : List (List Char))
    (spth sdp : Option (List Char)) (x : Char) (ds ct fmt : List Char)
    (p v : Nat) (acr ext : List Char)
    (hacr2 : acronymFor theCatalog ct = some acr)
    (hext2 : extensionFor theCatalog fmt = some ext) :
    getFileName theCatalog cfg listing spth sdp (x :: '_' :: ds) none ct fmt
      (s2l "archive") (VersionSel.num v) p none =
      some (renderFileName (x :: '_' :: ds) acr ext p (some v)) := by
  have hsd : storageDir cfg (s2l "archive") (x :: '_' :: ds) none none =
      some (joinPath (joinPath cfg.archiveRoot
        (if startsWithG (x :: '_' :: ds) then s2l "autogroup" else s2l "archive"))
        (x :: '_' :: ds)) := rfl
  have hvalid : isReferenceValid theCatalog cfg (s2l "archive") (x :: '_' :: ds)
      none none ct fmt = true := by
    simp [isReferenceValid, hsd, hacr2, hext2]
  have hdfr : dfrFileName theCatalog ct fmt (x :: '_' :: ds) p (some v) =
      some (renderFileName (x :: '_' :: ds) acr ext p (some v)) := by
    unfold dfrFileName
    rw [hacr2, hext2]
  unfold getFileName pathWorker
  rw [show workerStorage (s2l "archive") spth sdp = some (s2l "archive", none) from rfl]
  simp [effectiveCT, hvalid, hsd, hdfr]

theorem C1_case_helper (cfg : SiteConfig) (listing : List (List Char))
    (spth sdp : Option (List Char)) (x : Char) (ds : List Char)
    (ct fmt acr ext : List Char) (p v : Nat) (fn : List Char)
    (hx1 : x ≠ '.') (hx2 : x ≠ '_') (hds2 : ∀ c ∈ ds, c.isDigit = true)
    (hacr2 : acronymFor theCatalog ct = some acr)
    (hext2 : extensionFor theCatalog fmt = some ext)
    (hacr : ∀ c ∈ acr, c ≠ '_' ∧ c ≠ '.') (hext : ∀ c ∈ ext, c ≠ '.')
    (hct : contentTypeForAcronym theCatalog acr = some ct)
    (hfmt2 : formatForExtension theCatalog ct ext = some fmt)
    (hfn : getFileName theCatalog cfg listing spth sdp (x :: '_' :: ds) none ct fmt
      (s2l "archive") (VersionSel.num v) p none = some fn) :
    parseFileName theCatalog fn =
      (some (x :: '_' :: ds), some ct, some fmt, some p, some v) := by
  rw [getFileName_archive cfg listing spth sdp x ds ct fmt p v acr ext hacr2 hext2] at hfn
  have hfneq : fn = renderFileName (x :: '_' :: ds) acr ext p (some v) :=
    (Option.some.inj hfn).symm
  subst hfneq
  exact parse_render_master theCatalog x ds acr ext ct fmt p v hx1 hx2 hds2 hacr hext
    hct hfmt2

/-- C1: for every valid key (dataset id of the constrained shape, content
type and format from the catalog, partition and version in `[1, 99]`) with
no milestone, parsing the basename rendered by `getFileName` recovers
exactly the original fields. -/
theorem C1_parse_render_roundtrip (cfg : SiteConfig) (listing : List (List Char))
    (spth sdp : Option (List Char)) (dsid : List Char) (hdsid : ValidDatasetId dsid)
    (e : CTEntry) (he : e ∈ theCatalog.contentTypes) (fmt : List Char)
    (hf : fmt ∈ e.formats) (p v : Nat)
    (hp1 : 1 ≤ p) (hp2 : p ≤ 99) (hv1 : 1 ≤ v) (hv2 : v ≤ 99) (fn : List Char)
    (hfn : getFileName theCatalog cfg listing spth sdp dsid none e.ctype fmt
      (s2l "archive") (VersionSel.num v) p none = some fn) :
    parseFileName theCatalog fn =
      (some dsid, some e.ctype, some fmt, some p, some v) := by
  obtain ⟨x, ds, hx, hne, hdig, rfl⟩ := hdsid
  have hx1 : x ≠ '.' := by rcases hx with rfl | rfl <;> decide
  have hx2 : x ≠ '_' := by rcases hx with rfl | rfl <;> decide
  fin_cases he <;> fin_cases hf <;>
    exact C1_case_helper cfg listing spth sdp x ds _ _ _ _ p v fn hx1 hx2 hdig
      rfl rfl (by decide) (by decide) (by decide) (by decide) hfn

/-! ## Parser soundness machinery (C2) -/

/-- The structural filename grammar of the spec (§4.1/§6):
`<dataset_id>_<content_type_token>_P<partition:int>.<extension>[.V<version:int>]`
with the dataset id written as its two `_`-free fields and separator-free
token and extension. -/
def MatchesGrammar (fn : List Char) : Prop :=
  ∃ f0 f1 acr pd ext vtail,
    fn = f0 ++ '_' :: (f1 ++ '_' :: (acr ++ '_' :: 'P' :: (pd ++ '.' :: (ext ++ vtail)))) ∧
    (∀ c ∈ f0, c ≠ '_' ∧ c ≠ '.') ∧ (∀ c ∈ f1, c ≠ '_' ∧ c ≠ '.') ∧
    (∀ c ∈ acr, c ≠ '_' ∧ c ≠ '.') ∧ (∀ c ∈ ext, c ≠ '.') ∧
    pd ≠ [] ∧ (∀ c ∈ pd, c.isDigit = true) ∧
    (vtail = [] ∨ ∃ vd, vtail = '.' :: 'V' :: vd ∧ vd ≠ [] ∧ ∀ c ∈ vd, c.isDigit = true)

/-- Scan for an adjacent `_P` pair. -/
def containsPMark : List Char → Bool
  | [] => false
  | [_] => false
  | c :: d :: rest => (decide (c = '_') && decide (d = 'P')) || containsPMark (d :: rest)

theorem containsPMark_append (a b : List Char) :
    containsPMark (a ++ '_' :: 'P' :: b) = true := by
  induction a with
  | nil =>
    show (decide ('_' = '_') && decide ('P' = 'P')) || containsPMark ('P' :: b) = true
    simp
  | cons c a' ih =>
    cases a' with
    | nil =>
      show (decide (c = '_') && decide ('_' = 'P')) || containsPMark ('_' :: 'P' :: b) = true
      have h2 : containsPMark ('_' :: 'P' :: b) = true := by
        show (decide ('_' = '_') && decide ('P' = 'P')) || containsPMark ('P' :: b) = true
        simp
      rw [h2]
      simp
    | cons e a'' =>
      simp only [List.cons_append] at ih ⊢
      rw [show containsPMark (c :: e :: (a'' ++ '_' :: 'P' :: b)) =
        ((decide (c = '_') && decide (e = 'P')) ||
          containsPMark (e :: (a'' ++ '_' :: 'P' :: b))) from rfl]
      rw [ih]
      simp

theorem MatchesGrammar_hasPMark (fn : List Char) (h : MatchesGrammar fn) :
    containsPMark fn = true := by
  obtain ⟨f0, f1, acr, pd, ext, vtail, hfn, -⟩ := h
  have h2 : fn = (f0 ++ '_' :: (f1 ++ '_' :: acr)) ++
      '_' :: 'P' :: (pd ++ '.' :: (ext ++ vtail)) := by
    rw [hfn]
    simp
  rw [h2]
  exact containsPMark_append _ _

theorem allDigits_spec (l : List Char) (h : allDigits l = true) :
    l ≠ [] ∧ ∀ c ∈ l, c.isDigit = true := by
  unfold allDigits at h
  rw [Bool.and_eq_true] at h
  constructor
  · intro h0
    subst h0
    simp at h
  · exact fun c hc => List.all_eq_true.mp h.2 c hc

theorem parseVersionComp_sound (l : List Char) (v : Nat)
    (h : parseVersionComp l = some v) :
    ∃ vd, l = 'V' :: vd ∧ allDigits vd = true := by
  unfold parseVersionComp at h
  split at h
  · rename_i ds
    split at h
    · rename_i hd
      exact ⟨ds, rfl, hd⟩
    · exact absurd h (by simp)
  · exact absurd h (by simp)

theorem rsplitMarkAux_sound :
    ∀ (input acc lr r : List Char), rsplitMarkAux acc input = some (lr, r) →
      ∃ pre, input = pre ++ 'P' :: '_' :: lr ∧ r = pre.reverse ++ acc := by
  intro input
  induction input with
  | nil => intro acc lr r h; simp [rsplitMarkAux] at h
  | cons c rest ih =>
    intro acc lr r h
    cases rest with
    | nil => simp [rsplitMarkAux] at h
    | cons d rest2 =>
      rw [show rsplitMarkAux acc (c :: d :: rest2) =
        (if c = 'P' ∧ d = '_' then some (rest2, acc)
         else rsplitMarkAux (c :: acc) (d :: rest2)) from rfl] at h
      by_cases hcd : c = 'P' ∧ d = '_'
      · obtain ⟨rfl, rfl⟩ := hcd
        rw [if_pos ⟨rfl, rfl⟩] at h
        have hpair := Option.some.inj h
        refine ⟨[], ?_, ?_⟩
        · rw [show lr = rest2 from (congrArg Prod.fst hpair).symm]
          rfl
        · rw [show r = acc from (congrArg Prod.snd hpair).symm]
          rfl
      · rw [if_neg hcd] at h
        obtain ⟨pre, hp1, hp2⟩ := ih (c :: acc) lr r h
        refine ⟨c :: pre, ?_, ?_⟩
        · rw [List.cons_append, ← hp1]
        · rw [hp2]
          simp

theorem rsplitP_sound (l left pd : List Char) (h : rsplitP l = some (left, pd)) :
    l = left ++ '_' :: 'P' :: pd := by
  unfold rsplitP at h
  cases haux : rsplitMarkAux [] l.reverse with
  | none => rw [haux] at h; exact absurd h (by simp)
  | some pr =>
    obtain ⟨lr, r⟩ := pr
    rw [haux] at h
    have hpair := Option.some.inj h
    have hleft : left = lr.reverse := (congrArg Prod.fst hpair).symm
    have hpd : pd = r := (congrArg Prod.snd hpair).symm
    obtain ⟨pre, hp1, hp2⟩ := rsplitMarkAux_sound l.reverse [] lr r haux
    have hrev := congrArg List.reverse hp1
    simp at hrev
    rw [hrev, hleft, hpd, hp2]
    simp

theorem rfcSetBase_sound (cat : Catalog) (base : List Char) (extOpt : Option (List Char))
    (verOpt : Option Nat) (h : (rfcSetBase cat base extOpt verOpt).2 = true) :
    ∃ f0 f1 acr pd ext, extOpt = some ext ∧
      base = f0 ++ '_' :: (f1 ++ '_' :: (acr ++ '_' :: 'P' :: pd)) ∧
      (∀ c ∈ f0, c ≠ '_') ∧ (∀ c ∈ f1, c ≠ '_') ∧ (∀ c ∈ acr, c ≠ '_') ∧
      pd ≠ [] ∧ (∀ c ∈ pd, c.isDigit = true) := by
  unfold rfcSetBase at h
  split at h
  · rename_i left pd heq
    split at h
    · rename_i f0 f1 acr heq2
      split at h
      · rename_i ct heq3
        split at h
        · rename_i hdig
          split at h
          · rename_i ext
            split at h
            · rename_i fmt heq5
              have hbase := rsplitP_sound base left pd heq
              have hjoin : left = f0 ++ '_' :: (f1 ++ '_' :: acr) := by
                have hj := joinSep_splitOnC '_' left
                rw [heq2] at hj
                exact hj.symm
              have hparts := splitOnC_parts_no_sep '_' left
              rw [heq2] at hparts
              obtain ⟨hpd1, hpd2⟩ := allDigits_spec pd hdig
              refine ⟨f0, f1, acr, pd, ext, rfl, ?_, ?_, ?_, ?_, hpd1, hpd2⟩
              · rw [hbase, hjoin]
                simp
              · exact fun c hc => hparts f0 (by simp) c hc
              · exact fun c hc => hparts f1 (by simp) c hc
              · exact fun c hc => hparts acr (by simp) c hc
            · simp at h
          · simp at h
        · simp at h
      · simp at h
    · simp at h
    · simp at h
  · split at h
    · simp at h
    · simp at h
    · simp at h

theorem rfcSet_sound (cat : Catalog) (fn : List Char)
    (h : (rfcSet cat fn).2 = true) : MatchesGrammar fn := by
  unfold rfcSet at h
  dsimp only at h
  have hjoin := joinSep_splitOnC '.' fn
  have hparts := splitOnC_parts_no_sep '.' fn
  split at h
  · simp at h
  · rename_i lastC hlast
    split at h
    · rename_i v hpv
      split at h
      · rename_i base heqd
        obtain ⟨f0, f1, acr, pd, ext, hcontra, -⟩ :=
          rfcSetBase_sound cat base none (some v) h
        exact absurd hcontra (by simp)
      · rename_i base ext2 heqd
        obtain ⟨f0, f1, acr, pd, ext, hexteq, hbase, h0, h1, h2, hpd1, hpd2⟩ :=
          rfcSetBase_sound cat base (some ext2) (some v) h
        have hexteq2 : ext = ext2 := (Option.some.inj hexteq).symm
        subst hexteq2
        obtain ⟨vd, hlastC, hvd⟩ := parseVersionComp_sound lastC v hpv
        have hfull : (splitOnC '.' fn).dropLast ++ [lastC] = splitOnC '.' fn :=
          List.dropLast_append_getLast? lastC (Option.mem_def.mpr hlast)
        rw [heqd] at hfull
        have hfn : fn = base ++ '.' :: (ext ++ '.' :: lastC) := by
          rw [← hjoin, ← hfull]
          rfl
        have hbmem : base ∈ splitOnC '.' fn := by
          rw [← hfull]; simp
        have hemem : ext ∈ splitOnC '.' fn := by
          rw [← hfull]; simp
        obtain ⟨hvd1, hvd2⟩ := allDigits_spec vd hvd
        refine ⟨f0, f1, acr, pd, ext, '.' :: 'V' :: vd, ?_, ?_, ?_, ?_, ?_,
          hpd1, hpd2, Or.inr ⟨vd, rfl, hvd1, hvd2⟩⟩
        · rw [hfn, hbase, hlastC]
          simp
        · intro c hc
          refine ⟨h0 c hc, ?_⟩
          apply hparts base hbmem
          rw [hbase]; simp [hc]
        · intro c hc
          refine ⟨h1 c hc, ?_⟩
          apply hparts base hbmem
          rw [hbase]; simp [hc]
        · intro c hc
          refine ⟨h2 c hc, ?_⟩
          apply hparts base hbmem
          rw [hbase]; simp [hc]
        · exact fun c hc => hparts ext hemem c hc
      · simp at h
    · rename_i hpv
      split at h
      · rename_i base heqc
        obtain ⟨f0, f1, acr, pd, ext, hcontra, -⟩ :=
          rfcSetBase_sound cat base none none h
        exact absurd hcontra (by simp)
      · rename_i base ext2 heqc
        obtain ⟨f0, f1, acr, pd, ext, hexteq, hbase, h0, h1, h2, hpd1, hpd2⟩ :=
          rfcSetBase_sound cat base (some ext2) none h
        have hexteq2 : ext = ext2 := (Option.some.inj hexteq).symm
        subst hexteq2
        have hfn : fn = base ++ '.' :: ext := by
          rw [← hjoin, heqc]
          rfl
        have hbmem : base ∈ splitOnC '.' fn := by
          rw [heqc]; simp
        have hemem : ext ∈ splitOnC '.' fn := by
          rw [heqc]; simp
        refine ⟨f0, f1, acr, pd, ext, [], ?_, ?_, ?_, ?_, ?_,
          hpd1, hpd2, Or.inl rfl⟩
        · rw [hfn, hbase]
          simp
        · intro c hc
          refine ⟨h0 c hc, ?_⟩
          apply hparts base hbmem
          rw [hbase]; simp [hc]
        · intro c hc
          refine ⟨h1 c hc, ?_⟩
          apply hparts base hbmem
          rw [hbase]; simp [hc]
        · intro c hc
          refine ⟨h2 c hc, ?_⟩
          apply hparts base hbmem
          rw [hbase]; simp [hc]
        · exact fun c hc => hparts ext hemem c hc
      · simp at h

/-- C1 witness: the key `(D_000001, model, pdbx, 1, 1)` is valid, renders
to `D_000001_model_P1.cif.V1`, and parsing recovers the fields. -/
theorem C1_parse_render_roundtrip_witness :
    ValidDatasetId (s2l "D_000001") ∧
    parseFileName theCatalog (s2l "D_000001_model_P1.cif.V1") =
      (some (s2l "D_000001"), some (s2l "model"), some (s2l "pdbx"),
        some 1, some 1) := by
  have hds : ValidDatasetId (s2l "D_000001") :=
    ⟨'D', s2l "000001", Or.inl rfl, by decide, by decide, rfl⟩
  refine ⟨hds, ?_⟩
  exact C1_parse_render_roundtrip ⟨s2l "/data/archive", none⟩ [] none none
    (s2l "D_000001") hds
    ⟨s2l "model", [s2l "pdbx", s2l "pdb", s2l "pdbml"], s2l "model"⟩ (by decide)
    (s2l "pdbx") (by decide) 1 1 (by decide) (by decide) (by decide) (by decide)
    (s2l "D_000001_model_P1.cif.V1") (by decide)

/-- C2 counterexample: `D_000001_model.cif.V1` deviates structurally from
the grammar (no `_P` partition marker occurs in it), yet `splitFileName`
does not return the all-null tuple (it returns a partial one), so the
claim's statement about `splitFileName` is false. -/
theorem C2_counterexample :
    ¬ MatchesGrammar (s2l "D_000001_model.cif.V1") ∧
    splitFileName theCatalog (s2l "D_000001_model.cif.V1") ≠ allNone := by
  constructor
  · intro hm
    exact absurd (MatchesGrammar_hasPMark _ hm) (by decide)
  · decide

/-- C2 (amended): for every filename that deviates structurally from the
grammar `<dataset_id>_<token>_P<digits>.<ext>[.V<digits>]`,
`parseFileName` returns the all-null 5-tuple and (the embedding being
total) does not raise.  `splitFileName` likewise never raises, but on a
structurally deviant name it may return a partially populated tuple
rather than the all-null one. -/
theorem C2_parse_failure_allnull (cat : Catalog) (fn : List Char)
    (h : ¬ MatchesGrammar fn) :
    parseFileName cat fn = allNone := by
  have hok : (rfcSet cat fn).2 = false := by
    cases hk : (rfcSet cat fn).2
    · rfl
    · exact absurd (rfcSet_sound cat fn hk) h
  rcases hrs : rfcSet cat fn with ⟨r, ok⟩
  rw [hrs] at hok
  simp only at hok
  subst hok
  unfold parseFileName
  rw [hrs]
  rfl

/-- C2 witness: `D_000001.cif` (no partition marker) is structurally
deviant and `parseFileName` returns the all-null tuple on it. -/
theorem C2_parse_failure_allnull_witness :
    ¬ MatchesGrammar (s2l "D_000001.cif") ∧
    parseFileName theCatalog (s2l "D_000001.cif") = allNone := by
  have hnm : ¬ MatchesGrammar (s2l "D_000001.cif") := by
    intro hm
    exact absurd (MatchesGrammar_hasPMark _ hm) (by decide)
  exact ⟨hnm, C2_parse_failure_allnull theCatalog (s2l "D_000001.cif") hnm⟩
